import Mathlib

/-!
Charmil: the update check and the rendering of the starter templates.

A shallow embedding of the two pieces of logic of the repository:

* `starter/internal/update/update.go`: `CheckForUpdate`, which scans the
  release list fetched from GitHub and logs a notice when a newer public
  release exists;
* `cli/internal/cmd/init/init.go`: `renderTemplates` (with its walk callback)
  and `intersection`, which rewrite the cloned starter tree.

Go strings are Lean strings, Go `int` indices are natural numbers, nil-able
pointers are `Option`, Go maps are finite functions with the zero value
supplied at lookup, and the logger is the list of lines it was handed.
-/

set_option autoImplicit false

namespace Charmil

/-! ## Errors -/

/-- A Go `error` value: either a plain error carrying its message, or the
result of `fmt.Errorf` with a `%w` verb, which remembers the error it wraps. -/
inductive GoError where
  | leaf (msg : String)
  | wrapped (msg : String) (cause : GoError)
  deriving DecidableEq, Repr

namespace GoError

/-- The `Error()` method: the message of the error. -/
def Error : GoError → String
  | leaf msg => msg
  | wrapped msg _ => msg

/-- The error followed by everything reachable from it through `Unwrap`. -/
def chain : GoError → List GoError
  | leaf msg => [leaf msg]
  | wrapped msg cause => wrapped msg cause :: chain cause

end GoError

/-- The call `fmt.Errorf(text + "%w", err)`. With a non-nil `err` the result
wraps it and its message is `text` followed by the message of `err`. With a
nil `err` the verb has no error to wrap: the message ends in `%!w(<nil>)` and
the result wraps nothing. -/
def Errorf (text : String) (err : Option GoError) : GoError :=
  match err with
  | some e => GoError.wrapped (text ++ e.Error) e
  | none => GoError.leaf (text ++ "%!w(<nil>)")

/-! ## update.go -/

namespace Update

/-- The fields of `github.RepositoryRelease` that `CheckForUpdate` reads. All
of them are pointers in the library, hence optional. -/
structure RepositoryRelease where
  TagName : Option String
  Prerelease : Option Bool
  HTMLURL : Option String
  deriving DecidableEq, Repr

/-- The accessor `GetTagName`: the tag, or the empty string when the receiver
or the field is nil. -/
def GetTagName (r : Option RepositoryRelease) : String :=
  match r with
  | some rel => rel.TagName.getD ""
  | none => ""

/-- The accessor `GetPrerelease`: the flag, or `false` when the receiver or the
field is nil. -/
def GetPrerelease (r : Option RepositoryRelease) : Bool :=
  match r with
  | some rel => rel.Prerelease.getD false
  | none => false

/-- The accessor `GetHTMLURL`: the URL, or the empty string when the receiver
or the field is nil. -/
def GetHTMLURL (r : Option RepositoryRelease) : String :=
  match r with
  | some rel => rel.HTMLURL.getD ""
  | none => ""

/-- A Go `map[string]int`: the keys that are present with their values. -/
abbrev TagIndexMap := String → Option Nat

/-- The statement `m[key] = value`. -/
def TagIndexMap.set (m : TagIndexMap) (key : String) (value : Nat) : TagIndexMap :=
  fun k => if k = key then some value else m k

/-- The two variables the loop of `CheckForUpdate` maintains. -/
structure ScanState where
  latestRelease : Option RepositoryRelease
  releaseTagIndexMap : TagIndexMap

/-- The state before the loop: `latestRelease` is nil and the map is empty. -/
def ScanState.init : ScanState :=
  { latestRelease := none, releaseTagIndexMap := fun _ => none }

/-- The loop `for i, release := range releases` of `CheckForUpdate`, started at
index `i`: the first release that is not a prerelease is kept as
`latestRelease` (as long as that variable is nil), every tag is recorded
with its index, and the loop breaks after the entry whose tag is `Version`. -/
def scanReleases (Version : String) :
    List (Option RepositoryRelease) → Nat → ScanState → ScanState
  | [], _, st => st
  | release :: rest, i, st =>
    let latestRelease :=
      if st.latestRelease = none ∧ GetPrerelease release = false then release
      else st.latestRelease
    let releaseTagIndexMap := st.releaseTagIndexMap.set (GetTagName release) i
    if GetTagName release = Version then
      { latestRelease := latestRelease, releaseTagIndexMap := releaseTagIndexMap }
    else
      scanReleases Version rest (i + 1)
        { latestRelease := latestRelease, releaseTagIndexMap := releaseTagIndexMap }

/-- The release index: the map the loop of `CheckForUpdate` has built when it ends. -/
def releaseIndex (Version : String) (releases : List (Option RepositoryRelease)) : TagIndexMap :=
  (scanReleases Version releases 0 ScanState.init).releaseTagIndexMap

/-- An argument of a logger call: text styled by `color.Info` or by
`color.CodeSnippet`. -/
inductive Styled where
  | Info (text : String)
  | CodeSnippet (text : String)
  deriving DecidableEq, Repr

/-- The four `logger.Infoln` calls made when an update is available, each
with its arguments. -/
def updateNotice (tag url : String) : List (List Styled) :=
  [[], [Styled.Info "Update available!", Styled.CodeSnippet tag], [Styled.Info url], []]

/-- The function `CheckForUpdate`, given the running `Version` and the result of
`getReleases`. The value is the list of `logger.Infoln` calls it makes: empty
when it returns without reporting. -/
def CheckForUpdate (Version : String)
    (fetched : Except GoError (List (Option RepositoryRelease))) : List (List Styled) :=
  match fetched with
  | Except.error _ => []
  | Except.ok releases =>
    let st := scanReleases Version releases 0 ScanState.init
    match st.releaseTagIndexMap Version with
    | none => []
    | some currentVersionIndex =>
      let latestVersionIndex :=
        (st.releaseTagIndexMap (GetTagName st.latestRelease)).getD 0
      if currentVersionIndex > latestVersionIndex then
        updateNotice (GetTagName st.latestRelease) (GetHTMLURL st.latestRelease)
      else []

/-- A release record with all three fields set. -/
def mkRelease (tag : String) (prerelease : Bool) (url : String) : Option RepositoryRelease :=
  some { TagName := some tag, Prerelease := some prerelease, HTMLURL := some url }

/-- The release list of the examples: v2.0, the prerelease v1.1, v1.0. -/
def sampleReleases : List (Option RepositoryRelease) :=
  [mkRelease "v2.0" false "https://example.org/v2.0",
   mkRelease "v1.1" true "https://example.org/v1.1",
   mkRelease "v1.0" false "https://example.org/v1.0"]

/-- Position `k` is reached by the loop: no earlier entry carries the tag
`Version`, so the loop has not broken before it. -/
def Scanned (Version : String) (releases : List (Option RepositoryRelease)) (k : Nat) : Prop :=
  ∀ i, i < k → ∀ e, releases[i]? = some e → GetTagName e ≠ Version

/-- The running version's tag occurs in the list, first at position `p`. -/
def TagFirstAt (Version : String) (releases : List (Option RepositoryRelease)) (p : Nat) : Prop :=
  (∃ e, releases[p]? = some e ∧ GetTagName e = Version) ∧ Scanned Version releases p

/-- The first entry that is not a prerelease is at position `q`. -/
def FirstPublicAt (releases : List (Option RepositoryRelease)) (q : Nat) : Prop :=
  (∃ e, releases[q]? = some e ∧ GetPrerelease e = false) ∧
    ∀ i, i < q → ∀ e, releases[i]? = some e → GetPrerelease e = true

/-- The release list of the failing input of C2: two prereleases, the running
version v1.0 being the older one. -/
def prereleasesOnly : List (Option RepositoryRelease) :=
  [mkRelease "v1.1" true "https://example.org/v1.1",
   mkRelease "v1.0" true "https://example.org/v1.0"]

end Update

/-! ## init.go -/

namespace Init

/-- The context for rendering templates. -/
structure TemplateContext where
  Owner : String
  Repo : String
  CliName : String
  deriving DecidableEq, Repr

/-- The constant `os.PathSeparator` (Unix). -/
def PathSeparator : Char := '/'

/-- The pieces of a character sequence between the occurrences of `sep`: one
piece more than there are separators. -/
def splitChars (sep : Char) : List Char → List (List Char)
  | [] => [[]]
  | c :: cs =>
    if c = sep then [] :: splitChars sep cs
    else
      match splitChars sep cs with
      | [] => [[c]]
      | piece :: pieces => (c :: piece) :: pieces

/-- The call `strings.Split(s, string(sep))`. -/
def Split (s : String) (sep : Char) : List String :=
  (splitChars sep s.data).map String.mk

/-- A Go `map[string]bool`, read with the zero value `false` for absent keys. -/
abbrev StringSet := String → Bool

/-- The function `intersection`: the elements of `s2`, in order, that occur in
`s1`. The first loop fills the hash map from `s1`, the second appends to
`inter` every element of `s2` the map holds. -/
def intersection (s1 s2 : List String) : List String :=
  let hash : StringSet :=
    s1.foldl (fun hash e => fun k => if k = e then true else hash k) (fun _ => false)
  s2.foldl (fun inter e => if hash e then inter ++ [e] else inter) []

/-- The names the walk callback ignores. -/
def ignoreSlice : List String :=
  [".git", ".github", ".chglog", ".goreleaser.yml", "CONTRIBUTING.md", "bin"]

/-- The test of the walk callback: the path, split on the separator, shares an
element with `ignoreSlice`. -/
def Excluded (path : String) : Prop :=
  (intersection (Split path PathSeparator) ignoreSlice).length > 0

instance (path : String) : Decidable (Excluded path) := by
  unfold Excluded
  infer_instance

/-! ### The template engine -/

/-- A parsed template is a sequence of literal text and field references. -/
inductive TemplateNode where
  | text (s : String)
  | field (name : String)
  deriving DecidableEq, Repr

/-- The error of a template whose opening delimiter is never closed. -/
def unclosedAction : GoError := GoError.leaf "template: unclosed action"

/-- The error of a template with something else than a field reference between
its delimiters. -/
def unknownDirective (body : String) : GoError :=
  GoError.leaf ("template: unknown directive " ++ body)

/-- The error of executing a reference to a field the context does not have. -/
def missingField (name : String) : GoError :=
  GoError.leaf ("template: can't evaluate field " ++ name ++ " in type init.TemplateContext")

/-- The text read so far (held in reverse) as a node, or nothing when empty. -/
def flushText (acc : List Char) : List TemplateNode :=
  if acc = [] then [] else [TemplateNode.text (String.mk acc.reverse)]

/-- The characters a field name is made of. -/
def isFieldChar (c : Char) : Bool :=
  c.isAlphanum || c = '_'

/-- Modelled from the spec: the body of a marker of the Template Renderer
(Go's `text/template`, which is not part of the repository). A marker pair
surrounds a dotted field name: a dot followed by a non-empty name, blanks
around it ignored. Anything else is an unknown directive. -/
def fieldNode (body : List Char) : Except GoError TemplateNode :=
  let trimmed := ((body.dropWhile (· = ' ')).reverse.dropWhile (· = ' ')).reverse
  match trimmed with
  | '.' :: name =>
    if name ≠ [] ∧ name.all isFieldChar = true then Except.ok (TemplateNode.field (String.mk name))
    else Except.error (unknownDirective (String.mk body))
  | _ => Except.error (unknownDirective (String.mk body))

/-- Modelled from the spec: the parser of the Template Renderer (Go's
`text/template`, which is not part of the repository), reading either literal
text or, when `inAction` is set, the body of a marker; `acc` holds the
characters of the current piece in reverse. The opening delimiter is two left
braces and the closing one two right braces; a marker left open at the end of
the input is malformed. -/
def parseFrom : List Char → Bool → List Char → Except GoError (List TemplateNode)
  | [], false, acc => Except.ok (flushText acc)
  | [], true, _ => Except.error unclosedAction
  | [c], false, acc => Except.ok (flushText (c :: acc))
  | [_], true, _ => Except.error unclosedAction
  | c :: d :: rest, false, acc =>
    if c = '\x7b' ∧ d = '\x7b' then
      match parseFrom rest true [] with
      | Except.ok nodes => Except.ok (flushText acc ++ nodes)
      | Except.error e => Except.error e
    else parseFrom (d :: rest) false (c :: acc)
  | c :: d :: rest, true, acc =>
    if c = '\x7d' ∧ d = '\x7d' then
      match fieldNode acc.reverse with
      | Except.error e => Except.error e
      | Except.ok node =>
        match parseFrom rest false [] with
        | Except.ok nodes => Except.ok (node :: nodes)
        | Except.error e => Except.error e
    else parseFrom (d :: rest) true (c :: acc)

/-- Modelled from the spec: parsing of a file's textual content by the Template
Renderer; fails with a parse error on malformed template syntax (unbalanced
delimiters, unknown directives). -/
def Parse (content : String) : Except GoError (List TemplateNode) :=
  parseFrom content.data false []

/-- Modelled from the spec: the named fields of the context a reference
resolves against. -/
def lookupField (templateContext : TemplateContext) (name : String) : Option String :=
  if name = "Owner" then some templateContext.Owner
  else if name = "Repo" then some templateContext.Repo
  else if name = "CliName" then some templateContext.CliName
  else none

/-- Modelled from the spec: execution of a parsed template by the Template
Renderer. Literal text is written as is, a field reference writes the value of
the field verbatim, and a reference to a field that is not present on the
context stops the execution with an error. The value is the text written up to
that point, with the error if there is one. -/
def Execute (templateContext : TemplateContext) : List TemplateNode → String × Option GoError
  | [] => ("", none)
  | TemplateNode.text s :: rest =>
    let (written, err) := Execute templateContext rest
    (s ++ written, err)
  | TemplateNode.field name :: rest =>
    match lookupField templateContext name with
    | none => ("", some (missingField name))
    | some value =>
      let (written, err) := Execute templateContext rest
      (value ++ written, err)

/-! ### The file tree -/

/-- An entry of the file tree under the working directory, with the failures
the operating system reports for it.

* `file`: a regular file with its content; `readErr` is the error of reading
  it, `createErr` the error of opening it for writing, when there is one.
* `dir`: a directory with its entries by name, in the order the walk visits
  them; `readDirErr` is the error of listing it, when there is one.
* `noLstat`: an entry for which `os.Lstat` fails.
* `noStat`: an entry that is not a directory and for which `os.Stat` fails,
  such as a symbolic link that resolves to nothing.
* `link`: a symbolic link; `target` is the location, by the names leading to
  it from the working directory, of the entry the link resolves to once every
  link on the way is followed. `os.Lstat` sees the link itself, which is not a
  directory; `os.Stat`, `template.ParseFiles` and `os.Create` follow it. A
  link that leaves the working directory behaves as the file, or the directory
  without entries, that it resolves to, and is such an entry here. -/
inductive Node where
  | file (content : String) (readErr createErr : Option GoError)
  | dir (readDirErr : Option GoError) (entries : List (String × Node))
  | noLstat (err : GoError)
  | noStat (err : GoError)
  | link (target : List String)

/-- The part of `os.FileInfo` the callback reads. -/
structure FileInfo where
  IsDir : Bool
  deriving DecidableEq, Repr

/-- The error of following a link whose target is not there. -/
def noSuchFile : GoError := GoError.leaf "no such file or directory"

/-- The call `os.Stat(path)`, on the entry `path` resolves to. A link is its own
entry only when its target is not there. -/
def Stat : Node → Except GoError FileInfo
  | Node.file _ _ _ => Except.ok { IsDir := false }
  | Node.dir _ _ => Except.ok { IsDir := true }
  | Node.noLstat err => Except.error err
  | Node.noStat err => Except.error err
  | Node.link _ => Except.error noSuchFile

/-- The call `template.ParseFiles(path)`, on the entry `path` resolves to: the
file is read and its content parsed. -/
def ParseFiles : Node → Except GoError (List TemplateNode)
  | Node.file content none _ => Parse content
  | Node.file _ (some readErr) _ => Except.error readErr
  | Node.dir _ _ => Except.error (GoError.leaf "read: is a directory")
  | Node.noLstat err => Except.error err
  | Node.noStat err => Except.error err
  | Node.link _ => Except.error noSuchFile

/-- The call `os.Create(path)`, on the entry `path` resolves to: the file is
truncated. -/
def Create : Node → Except GoError Node
  | Node.file _ readErr none => Except.ok (Node.file "" readErr none)
  | Node.file _ _ (some createErr) => Except.error createErr
  | Node.dir _ _ => Except.error (GoError.leaf "open: is a directory")
  | Node.noLstat err => Except.error err
  | Node.noStat err => Except.error err
  | Node.link _ => Except.error noSuchFile

/-- Writing to the file `os.Create` has opened. -/
def Write (written : String) : Node → Node
  | Node.file content readErr createErr => Node.file (content ++ written) readErr createErr
  | node => node

/-- The callback `renderTemplates` hands to `filepath.Walk`, applied to `path`,
to the entry `node` that `path` resolves to and to the error `err` of the
walk. The value is the entry afterwards and the error the callback returns.

The variable `err` is assigned by `fi, err := os.Stat(path)`; the two returns
after `template.ParseFiles` and `os.Create` format that variable, not
`tmplErr` or `PathErr`. -/
def walkFn (templateContext : TemplateContext) (path : String) (node : Node)
    (err : Option GoError) : Node × Option GoError :=
  match err with
  | some e => (node, some e)
  | none =>
    let pathSplit := Split path PathSeparator
    let intersected := intersection pathSplit ignoreSlice
    if intersected.length > 0 then (node, none)
    else
      match Stat node with
      | Except.error statErr => (node, some (Errorf "failed to read file info: " (some statErr)))
      | Except.ok fi =>
        let err : Option GoError := none
        if fi.IsDir then (node, none)
        else
          match ParseFiles node with
          | Except.error _ => (node, some (Errorf "failed to parse template: " err))
          | Except.ok tmpl =>
            match Create node with
            | Except.error _ => (node, some (Errorf "failed to create file: " err))
            | Except.ok f =>
              match Execute templateContext tmpl with
              | (written, some execErr) =>
                (Write written f, some (Errorf "failed to execute template: " (some execErr)))
              | (written, none) => (Write written f, none)

/-- The call `filepath.Join(path, name)` as `filepath.Walk` makes it: `path` is
the working directory as `os.Getwd` gives it, a cleaned absolute path, or a
path `Join` has built, and `name` is the name of a directory entry. Cleaning
then has nothing to remove, and the value is the two joined by one separator
(none is added to the root directory, which ends in one). -/
def Join (path name : String) : String :=
  if path.data.getLast? = some PathSeparator then path ++ name
  else path ++ String.singleton PathSeparator ++ name

/-- The entry of a tree at the location given by the names leading to it. -/
def Node.find : Node → List String → Option Node
  | node, [] => some node
  | Node.dir _ entries, name :: names =>
    match entries.find? (fun entry => entry.1 = name) with
    | some (_, child) => child.find names
    | none => none
  | _, _ :: _ => none

/-- The entry at the location `name :: names` below a directory with the given
entries. -/
def findIn (entries : List (String × Node)) (name : String) (names : List String) :
    Option Node :=
  match entries.find? (fun entry => entry.1 = name) with
  | some (_, child) => child.find names
  | none => none

/-- Nothing lies below the entry: it is not a directory. -/
def Leaf (node : Node) : Prop :=
  ∀ name names, node.find (name :: names) = none

/-- The entries of a directory with `change` applied to the first one called
`name`. -/
def replaceFirst (name : String) (change : Node → Node) :
    List (String × Node) → List (String × Node)
  | [] => []
  | (name1, child) :: rest =>
    if name1 = name then (name1, change child) :: rest
    else (name1, child) :: replaceFirst name change rest

/-- The tree with the entry at a location replaced; a location that is not in
the tree replaces nothing. -/
def Node.set : Node → List String → Node → Node
  | _, [], new => new
  | Node.dir readDirErr entries, name :: names, new =>
    Node.dir readDirErr (replaceFirst name (fun child => child.set names new) entries)
  | node, _ :: _, _ => node

/-- The entry a path resolves to, with its location in the tree `fs`, for the
path of the entry `node` at the location `loc`: the target of a link, the
entry itself otherwise. A link whose target is not in the tree, or an entry
that is not at its location, is handed on as it is, with no location. -/
def resolve (fs : Node) (loc : List String) (node : Node) : Option (List String) × Node :=
  match node with
  | Node.link target =>
    match fs.find target with
    | some entry => (some target, entry)
    | none => (none, node)
  | _ =>
    match fs.find loc with
    | some entry => (some loc, entry)
    | none => (none, node)

/-- A call of the callback by the walk, on the path of the entry `node` at the
location `loc` of the tree `fs`: the callback acts on the entry the path
resolves to, and the tree afterwards holds what the callback left there. -/
def visit (templateContext : TemplateContext) (path : String) (loc : List String)
    (fs : Node) (node : Node) (err : Option GoError) : Node × Option GoError :=
  match resolve fs loc node with
  | (some at1, entry) =>
    match walkFn templateContext path entry err with
    | (entry1, err1) => (fs.set at1 entry1, err1)
  | (none, entry) =>
    match walkFn templateContext path entry err with
    | (_, err1) => (fs, err1)

mutual
/-- The function `walk` of `path/filepath`, on an entry for which `Lstat` has
succeeded, at the location `loc` of the tree `fs`. A directory is listed, the
callback is called on it with the error of the listing, and unless one of the
two failed its entries are walked; any other entry, a link included, is
handed to the callback. The callback of `renderTemplates` never returns
`filepath.SkipDir`, so every error ends the walk. The callback changes the
content of files only, so the entries to visit are those the tree had when
the walk began. The value is the tree afterwards and the error. -/
def walk (templateContext : TemplateContext) (path : String) (loc : List String)
    (fs : Node) : Node → Node × Option GoError
  | Node.dir readDirErr entries =>
    match visit templateContext path loc fs (Node.dir readDirErr entries) readDirErr with
    | (fs1, some err1) => (fs1, some err1)
    | (fs1, none) =>
      match readDirErr with
      | some _ => (fs1, none)
      | none => walkEntries templateContext path loc fs1 entries
  | node => visit templateContext path loc fs node none
/-- The loop of `walk` over the names of a directory: each entry is looked up
with `lstat`; on failure the callback is called with the error, otherwise the
entry is walked; the first error ends the loop. -/
def walkEntries (templateContext : TemplateContext) (path : String) (loc : List String)
    (fs : Node) : List (String × Node) → Node × Option GoError
  | [] => (fs, none)
  | (name, Node.noLstat lstatErr) :: rest =>
    match visit templateContext (Join path name) (loc ++ [name]) fs (Node.noLstat lstatErr)
      (some lstatErr) with
    | (fs1, some err) => (fs1, some err)
    | (fs1, none) => walkEntries templateContext path loc fs1 rest
  | (name, child) :: rest =>
    match walk templateContext (Join path name) (loc ++ [name]) fs child with
    | (fs1, some err) => (fs1, some err)
    | (fs1, none) => walkEntries templateContext path loc fs1 rest
end

/-- The function `filepath.Walk`: the root is looked up with `Lstat`; on failure
the callback is called with the error, otherwise the root is walked. The value
is the tree afterwards and the error. -/
def Walk (templateContext : TemplateContext) (root : String) (tree : Node) :
    Node × Option GoError :=
  match tree with
  | Node.noLstat lstatErr => visit templateContext root [] tree tree (some lstatErr)
  | _ => walk templateContext root [] tree tree

/-- How `renderTemplates` ends: the process exits, or the function returns an
error (nil on success). -/
inductive Outcome where
  | exited (code : Nat)
  | returned (err : Option GoError)
  deriving DecidableEq, Repr

/-- What `renderTemplates` asks of the operating system before the walk: the
working directory, and the renaming of one path to another, which fails or
yields the tree of the working directory after it. -/
structure System where
  Getwd : Except GoError String
  Rename : String → String → Node → Except GoError Node

/-- The function `renderTemplates`, on the tree of the working directory. The
value is the tree afterwards and how the function ends. -/
def renderTemplates (templateContext : TemplateContext) (os : System) (tree : Node) :
    Node × Outcome :=
  match os.Getwd with
  | Except.error _ => (tree, Outcome.exited 1)
  | Except.ok path =>
    let oldPath := path ++ "/cmd/cli"
    let newPath := path ++ "/cmd/" ++ templateContext.CliName
    match os.Rename oldPath newPath tree with
    | Except.error err => (tree, Outcome.returned (some err))
    | Except.ok renamed =>
      match Walk templateContext path renamed with
      | (tree1, some err) =>
        (tree1, Outcome.returned (some (Errorf "failed to walk directory: " (some err))))
      | (tree1, none) => (tree1, Outcome.returned none)

mutual
/-- The first error the traversal itself meets, in the order of the walk: a
directory that cannot be listed, or an entry for which `lstat` fails. -/
def traversalError : Node → Option GoError
  | Node.dir (some readDirErr) _ => some readDirErr
  | Node.dir none entries => traversalErrorEntries entries
  | Node.noLstat lstatErr => some lstatErr
  | Node.file _ _ _ => none
  | Node.noStat _ => none
  | Node.link _ => none
/-- The first error the traversal meets among the entries of a directory. -/
def traversalErrorEntries : List (String × Node) → Option GoError
  | [] => none
  | (_, child) :: rest =>
    match traversalError child with
    | some err => some err
    | none => traversalErrorEntries rest
end

/-- No name of the location is an ignored name. -/
def clearOfIgnored (loc : List String) : Bool :=
  loc.all (fun name => !ignoreSlice.contains name)

mutual
/-- Every link of the tree whose own path is not ignored resolves to a location
with no ignored name on the way; `path` is the path of the entry. -/
def linksClear (path : String) : Node → Bool
  | Node.link target => decide (Excluded path) || clearOfIgnored target
  | Node.dir _ entries => linksClearEntries path entries
  | Node.file _ _ _ => true
  | Node.noLstat _ => true
  | Node.noStat _ => true
/-- Every link below the entries of the directory at `path` is as `linksClear`
asks. -/
def linksClearEntries (path : String) : List (String × Node) → Bool
  | [] => true
  | (name, child) :: rest => linksClear (Join path name) child && linksClearEntries path rest
end

/-! ### Examples -/

/-- Renaming, for the examples: the entry at the location `names` gets the name
`newName` within its directory; fails when the entry is missing or the new
name is taken. -/
def renameAt : List String → String → Node → Except GoError Node
  | [], _, _ => Except.error (GoError.leaf "rename: no such file or directory")
  | [oldName], newName, Node.dir readDirErr entries =>
    if entries.any (fun entry => entry.1 = newName) then
      Except.error (GoError.leaf "rename: file exists")
    else if entries.any (fun entry => entry.1 = oldName) then
      Except.ok (Node.dir readDirErr
        (entries.map (fun entry => if entry.1 = oldName then (newName, entry.2) else entry)))
    else Except.error (GoError.leaf "rename: no such file or directory")
  | name :: rest, newName, Node.dir readDirErr entries =>
    match entries.find? (fun entry => entry.1 = name) with
    | none => Except.error (GoError.leaf "rename: no such file or directory")
    | some (_, child) =>
      match renameAt rest newName child with
      | Except.error err => Except.error err
      | Except.ok child1 =>
        Except.ok (Node.dir readDirErr
          (entries.map (fun entry => if entry.1 = name then (name, child1) else entry)))
  | _ :: _, _, _ => Except.error (GoError.leaf "rename: not a directory")

/-- The operating system of the examples, with working directory `wd`: a path
below `wd` is renamed within its directory. -/
def exampleSystem (wd : String) : System :=
  { Getwd := Except.ok wd
    Rename := fun oldPath newPath tree =>
      renameAt ((Split oldPath PathSeparator).drop (Split wd PathSeparator).length)
        ((Split newPath PathSeparator).getLastD "") tree }

/-- The context of the examples. -/
def exampleContext : TemplateContext :=
  { Owner := "acme", Repo := "tool", CliName := "mycli" }

/-- The content made of the three field markers. -/
def threeMarkers : String :=
  "\x7b\x7b.Owner\x7d\x7d\x7b\x7b.Repo\x7d\x7d\x7b\x7b.CliName\x7d\x7d"

/-- The starter tree after the rename and the walk. -/
def renderedTree : Node :=
  Node.dir none
    [(".git", Node.dir none [("config", Node.file "[core] \x7b\x7b" none none)]),
     ("README.md", Node.file "acme/tool" none none),
     ("cmd", Node.dir none
       [("mycli", Node.dir none [("main.go", Node.file "acmetoolmycli" none none)])])]

/-- A starter tree with a file that is no well-formed template outside the
ignored names. -/
def malformedTree : Node :=
  Node.dir none
    [("Makefile", Node.file "build: \x7b\x7b" none none),
     ("cmd", Node.dir none
       [("cli", Node.dir none [("main.go", Node.file threeMarkers none none)])])]

/-- The error of opening a file for writing without permission. -/
def readOnly : GoError :=
  GoError.leaf "open /home/u/proj/LICENSE: permission denied"

/-- A starter tree with a file that cannot be opened for writing. -/
def readOnlyTree : Node :=
  Node.dir none
    [("LICENSE", Node.file "Copyright \x7b\x7b.Owner\x7d\x7d" none (some readOnly)),
     ("cmd", Node.dir none
       [("cli", Node.dir none [("main.go", Node.file threeMarkers none none)])])]

/-- The error `renderTemplates` returns when parsing a template fails during the
walk. -/
def parseFailure : GoError :=
  GoError.wrapped "failed to walk directory: failed to parse template: %!w(<nil>)"
    (GoError.leaf "failed to parse template: %!w(<nil>)")

/-- The error `renderTemplates` returns when opening a file for writing fails
during the walk. -/
def createFailure : GoError :=
  GoError.wrapped "failed to walk directory: failed to create file: %!w(<nil>)"
    (GoError.leaf "failed to create file: %!w(<nil>)")

end Init

/-! # Theorems -/

namespace Update

/-! ### The loop -/

theorem scanned_tail {Version : String} {release : Option RepositoryRelease}
    {rest : List (Option RepositoryRelease)} {k : Nat}
    (h : Scanned Version (release :: rest) (k + 1)) : Scanned Version rest k := by
  intro i hi e he
  exact h (i + 1) (by omega) e (by simpa using he)

theorem scanned_head {Version : String} {release : Option RepositoryRelease}
    {rest : List (Option RepositoryRelease)} {k : Nat}
    (h : Scanned Version (release :: rest) (k + 1)) : GetTagName release ≠ Version :=
  h 0 (by omega) release (by simp)

/-- Every key of the map after the loop was either there before the loop, or
is the tag of a scanned entry, mapped to the index of that entry. -/
theorem scan_map_sound (Version : String) (releases : List (Option RepositoryRelease)) :
    ∀ (i : Nat) (st : ScanState) (t : String) (j : Nat),
      (scanReleases Version releases i st).releaseTagIndexMap t = some j →
      st.releaseTagIndexMap t = some j ∨
        ∃ k e, j = i + k ∧ releases[k]? = some e ∧ GetTagName e = t ∧
          Scanned Version releases k := by
  induction releases with
  | nil => intro i st t j h; exact Or.inl h
  | cons release rest ih =>
    intro i st t j h
    have here : (st.releaseTagIndexMap.set (GetTagName release) i) t = some j →
        st.releaseTagIndexMap t = some j ∨
          ∃ k e, j = i + k ∧ (release :: rest)[k]? = some e ∧ GetTagName e = t ∧
            Scanned Version (release :: rest) k := by
      intro hm
      unfold TagIndexMap.set at hm
      split at hm
      · rename_i ht
        refine Or.inr ⟨0, release, ?_, by simp, ht.symm, ?_⟩
        · simp at hm; omega
        · intro a ha; omega
      · exact Or.inl hm
    unfold scanReleases at h
    simp only at h
    split at h
    · exact here h
    · rename_i hne
      rcases ih _ _ t j h with h1 | ⟨k, e, hj, hk, ht, hs⟩
      · exact here h1
      · refine Or.inr ⟨k + 1, e, by omega, by simpa using hk, ht, ?_⟩
        intro a ha e2 he2
        cases a with
        | zero =>
          simp at he2
          subst he2
          exact hne
        | succ a => exact hs a (by omega) e2 (by simpa using he2)

/-- A key present before the loop is still present after it. -/
theorem scan_map_keeps (Version : String) (releases : List (Option RepositoryRelease)) :
    ∀ (i : Nat) (st : ScanState) (t : String),
      (st.releaseTagIndexMap t).isSome →
      ((scanReleases Version releases i st).releaseTagIndexMap t).isSome := by
  induction releases with
  | nil => intro i st t h; exact h
  | cons release rest ih =>
    intro i st t h
    have here : ((st.releaseTagIndexMap.set (GetTagName release) i) t).isSome := by
      unfold TagIndexMap.set
      split
      · rfl
      · exact h
    unfold scanReleases
    simp only
    split
    · exact here
    · exact ih _ _ t here

/-- The tag of every scanned entry is a key of the map after the loop. -/
theorem scan_map_complete (Version : String) (releases : List (Option RepositoryRelease)) :
    ∀ (i : Nat) (st : ScanState) (k : Nat) (e : Option RepositoryRelease),
      releases[k]? = some e → Scanned Version releases k →
      ((scanReleases Version releases i st).releaseTagIndexMap (GetTagName e)).isSome := by
  induction releases with
  | nil => intro i st k e h; simp at h
  | cons release rest ih =>
    intro i st k e hk hs
    unfold scanReleases
    simp only
    cases k with
    | zero =>
      simp at hk
      subst hk
      have here : ((st.releaseTagIndexMap.set (GetTagName release) i)
          (GetTagName release)).isSome := by
        simp [TagIndexMap.set]
      split
      · exact here
      · exact scan_map_keeps Version rest _ _ _ here
    | succ k =>
      rw [if_neg (scanned_head hs)]
      exact ih _ _ k e (by simpa using hk) (scanned_tail hs)

/-- When the running version first occurs at position `p`, a scanned position
is at most `p`. -/
theorem scanned_le {Version : String} {releases : List (Option RepositoryRelease)} {p k : Nat}
    (hp : TagFirstAt Version releases p) (hk : Scanned Version releases k) : k ≤ p := by
  by_contra hlt
  obtain ⟨⟨e, he, ht⟩, _⟩ := hp
  exact hk p (by omega) e he ht

/-- When the running version first occurs at position `p`, the map sends it to
`p`. -/
theorem scan_map_version {Version : String} {releases : List (Option RepositoryRelease)}
    {p : Nat} (hp : TagFirstAt Version releases p) :
    (scanReleases Version releases 0 ScanState.init).releaseTagIndexMap Version = some p := by
  obtain ⟨e, he, ht⟩ := hp.1
  have hsome := scan_map_complete Version releases 0 ScanState.init p e he hp.2
  rw [ht] at hsome
  obtain ⟨j, hj⟩ := Option.isSome_iff_exists.mp hsome
  rcases scan_map_sound Version releases 0 _ _ _ hj with h0 | ⟨k, e2, hjk, hk, ht2, hs⟩
  · simp [ScanState.init] at h0
  · have h1 : k ≤ p := scanned_le hp hs
    have h2 : p ≤ k := by
      by_contra hlt
      exact hp.2 k (by omega) e2 hk ht2
    rw [hj]; congr 1; omega

/-- When no entry carries the running version's tag, it is not a key of the
map. -/
theorem scan_map_absent {Version : String} {releases : List (Option RepositoryRelease)}
    (h : ∀ e, e ∈ releases → GetTagName e ≠ Version) :
    (scanReleases Version releases 0 ScanState.init).releaseTagIndexMap Version = none := by
  cases hm : (scanReleases Version releases 0 ScanState.init).releaseTagIndexMap Version with
  | none => rfl
  | some j =>
    rcases scan_map_sound Version releases 0 _ _ _ hm with h0 | ⟨k, e, _, hk, ht, _⟩
    · simp [ScanState.init] at h0
    · exact absurd ht (h e (List.getElem?_mem hk))

/-- Once `latestRelease` is set, the loop leaves it alone. -/
theorem scan_latest_keeps (Version : String) (releases : List (Option RepositoryRelease)) :
    ∀ (i : Nat) (st : ScanState) (r : RepositoryRelease),
      st.latestRelease = some r →
      (scanReleases Version releases i st).latestRelease = some r := by
  induction releases with
  | nil => intro i st r h; exact h
  | cons release rest ih =>
    intro i st r h
    unfold scanReleases
    simp only
    have here : (if st.latestRelease = none ∧ GetPrerelease release = false then release
        else st.latestRelease) = some r := by
      rw [if_neg (by simp [h])]; exact h
    split
    · exact here
    · exact ih _ _ r here

/-- The first scanned entry that is a record and not a prerelease becomes
`latestRelease`. -/
theorem scan_latest_public (Version : String) (releases : List (Option RepositoryRelease)) :
    ∀ (i : Nat) (st : ScanState) (q : Nat) (r : RepositoryRelease),
      st.latestRelease = none →
      releases[q]? = some (some r) → GetPrerelease (some r) = false →
      (∀ a, a < q → ∀ e, releases[a]? = some e → GetPrerelease e = true) →
      Scanned Version releases q →
      (scanReleases Version releases i st).latestRelease = some r := by
  induction releases with
  | nil => intro i st q r _ h; simp at h
  | cons release rest ih =>
    intro i st q r hst hq hpub hpre hs
    unfold scanReleases
    simp only
    cases q with
    | zero =>
      simp at hq
      subst hq
      have here : (if st.latestRelease = none ∧ GetPrerelease (some r) = false then some r
          else st.latestRelease) = some r := by
        rw [if_pos ⟨hst, hpub⟩]
      split
      · exact here
      · exact scan_latest_keeps Version rest _ _ r here
    | succ q =>
      rw [if_neg (scanned_head hs)]
      have h0 : GetPrerelease release = true := hpre 0 (by omega) release (by simp)
      refine ih _ _ q r ?_ (by simpa using hq) hpub ?_ (scanned_tail hs)
      · simp [h0, hst]
      · intro a ha e he
        exact hpre (a + 1) (by omega) e (by simpa using he)

/-- When the running version first occurs at position `p` and every entry up to
`p` is a prerelease or a nil pointer, `latestRelease` is nil after the loop. -/
theorem scan_latest_none (Version : String) (releases : List (Option RepositoryRelease)) :
    ∀ (i : Nat) (st : ScanState) (p : Nat),
      st.latestRelease = none → TagFirstAt Version releases p →
      (∀ a, a ≤ p → ∀ e, releases[a]? = some e → GetPrerelease e = true ∨ e = none) →
      (scanReleases Version releases i st).latestRelease = none := by
  induction releases with
  | nil => intro i st p h _ _; exact h
  | cons release rest ih =>
    intro i st p hst hp hall
    unfold scanReleases
    simp only
    have here : (if st.latestRelease = none ∧ GetPrerelease release = false then release
        else st.latestRelease) = none := by
      rcases hall 0 (by omega) release (by simp) with h0 | h0
      · simp [h0, hst]
      · split
        · exact h0
        · exact hst
    split
    · exact here
    · rename_i hne
      cases p with
      | zero =>
        obtain ⟨⟨e, he, ht⟩, _⟩ := hp
        simp at he
        subst he
        exact absurd ht hne
      | succ p =>
        refine ih _ _ p here ⟨?_, scanned_tail hp.2⟩ ?_
        · obtain ⟨⟨e, he, ht⟩, _⟩ := hp
          exact ⟨e, by simpa using he, ht⟩
        · intro a ha e he
          exact hall (a + 1) (by omega) e (by simpa using he)

theorem scanned_of_take {Version : String} {releases : List (Option RepositoryRelease)}
    {k : Nat} (h : ∀ e, e ∈ releases.take k → GetTagName e ≠ Version) :
    Scanned Version releases k := by
  intro i hi e he
  apply h
  apply List.getElem?_mem (n := i)
  rw [List.getElem?_take, if_pos hi]
  exact he

theorem prerelease_of_take {releases : List (Option RepositoryRelease)}
    {k : Nat} (h : ∀ e, e ∈ releases.take k → GetPrerelease e = true) :
    ∀ i, i < k → ∀ e, releases[i]? = some e → GetPrerelease e = true := by
  intro i hi e he
  apply h
  apply List.getElem?_mem (n := i)
  rw [List.getElem?_take, if_pos hi]
  exact he

/-! ### The claims about `CheckForUpdate` -/

/-- C1: when the running version's tag first occurs at position `p` and the
first entry that is not a prerelease is a release record at a position `q`
strictly before `p`, `CheckForUpdate` reports that an update is available: it
logs an empty line, the line "Update available!" with the tag of the entry at
position `q`, the line with the URL of that entry, and an empty line. -/
theorem C1_update_reported (Version : String) (releases : List (Option RepositoryRelease))
    (p q : Nat) (r : RepositoryRelease)
    (hp : TagFirstAt Version releases p) (hq : FirstPublicAt releases q) (hqp : q < p)
    (hr : releases[q]? = some (some r)) :
    CheckForUpdate Version (Except.ok releases) =
      [[], [Styled.Info "Update available!", Styled.CodeSnippet (r.TagName.getD "")],
        [Styled.Info (r.HTMLURL.getD "")], []] := by
  have hsq : Scanned Version releases q := fun i hi e he => hp.2 i (by omega) e he
  have hpub : GetPrerelease (some r) = false := by
    obtain ⟨⟨e, he, hf⟩, _⟩ := hq
    rw [hr] at he
    cases he
    exact hf
  have hlatest := scan_latest_public Version releases 0 ScanState.init q r rfl hr hpub hq.2 hsq
  have hcur := scan_map_version hp
  have htag : GetTagName (some r) ≠ Version := hp.2 q hqp (some r) hr
  have hidx : ((scanReleases Version releases 0 ScanState.init).releaseTagIndexMap
      (GetTagName (some r))).getD 0 < p := by
    cases hm : (scanReleases Version releases 0 ScanState.init).releaseTagIndexMap
        (GetTagName (some r)) with
    | none => simp; omega
    | some j =>
      rcases scan_map_sound Version releases 0 _ _ _ hm with h0 | ⟨k, e, hj, hk, ht, hs⟩
      · simp [ScanState.init] at h0
      · have hkp : k ≤ p := scanned_le hp hs
        have hne : k ≠ p := by
          intro hkeq
          subst hkeq
          obtain ⟨⟨e2, he2, ht2⟩, _⟩ := hp
          rw [hk] at he2
          cases he2
          exact htag (ht.symm.trans ht2)
        simp; omega
  unfold CheckForUpdate
  simp only [hcur, hlatest]
  rw [if_pos hidx]
  rfl

/-- C1, at the release list v2.0, v1.1 (prerelease), v1.0 with running version
v1.0: the notice carries the tag v2.0. -/
theorem C1_update_reported_witness :
    TagFirstAt "v1.0" sampleReleases 2 ∧ FirstPublicAt sampleReleases 0 ∧
      CheckForUpdate "v1.0" (Except.ok sampleReleases) =
        [[], [Styled.Info "Update available!", Styled.CodeSnippet "v2.0"],
          [Styled.Info "https://example.org/v2.0"], []] :=
  have hp : TagFirstAt "v1.0" sampleReleases 2 :=
    ⟨⟨_, rfl, by decide⟩, scanned_of_take (by decide)⟩
  have hq : FirstPublicAt sampleReleases 0 :=
    ⟨⟨_, rfl, by decide⟩, prerelease_of_take (by decide)⟩
  ⟨hp, hq, C1_update_reported "v1.0" sampleReleases 2 0
    { TagName := some "v2.0", Prerelease := some false,
      HTMLURL := some "https://example.org/v2.0" } hp hq (by decide) rfl⟩

/-- C2 fails on the code: with the releases v1.1 and v1.0, both prereleases,
and running version v1.0, every scanned entry is a prerelease, yet
`CheckForUpdate` logs the update notice, with an empty tag and an empty URL. -/
theorem C2_notice_without_public_release :
    TagFirstAt "v1.0" prereleasesOnly 1 ∧
      (∀ e, e ∈ prereleasesOnly → GetPrerelease e = true) ∧
      CheckForUpdate "v1.0" (Except.ok prereleasesOnly) =
        [[], [Styled.Info "Update available!", Styled.CodeSnippet ""], [Styled.Info ""], []] ∧
      CheckForUpdate "v1.0" (Except.ok prereleasesOnly) ≠ [] :=
  ⟨⟨⟨_, rfl, by decide⟩, scanned_of_take (by decide)⟩, by decide, by decide, by decide⟩

/-- C3: when the first entry that is not a prerelease is the first entry whose
tag equals the running version, `CheckForUpdate` logs nothing. -/
theorem C3_current_is_latest (Version : String) (releases : List (Option RepositoryRelease))
    (p : Nat) (hp : TagFirstAt Version releases p) (hq : FirstPublicAt releases p) :
    CheckForUpdate Version (Except.ok releases) = [] := by
  have hcur := scan_map_version hp
  obtain ⟨e, he, hpub⟩ := hq.1
  have htag : GetTagName e = Version := by
    obtain ⟨⟨e2, he2, ht2⟩, _⟩ := hp
    rw [he] at he2
    cases he2
    exact ht2
  have hlatest : GetTagName (scanReleases Version releases 0 ScanState.init).latestRelease
      = Version := by
    cases e with
    | none =>
      have hnone := scan_latest_none Version releases 0 ScanState.init p rfl hp (by
        intro a ha e2 he2
        rcases Nat.lt_or_ge a p with hlt | hge
        · exact Or.inl (hq.2 a hlt e2 he2)
        · have hap : a = p := by omega
          subst hap
          rw [he] at he2
          cases he2
          exact Or.inr rfl)
      rw [hnone]
      exact htag
    | some r =>
      rw [scan_latest_public Version releases 0 ScanState.init p r rfl he hpub hq.2 hp.2]
      exact htag
  unfold CheckForUpdate
  simp only [hcur, hlatest]
  simp

/-- C3, at the release list v2.0, v1.1 (prerelease), v1.0 with running version
v2.0: nothing is logged. -/
theorem C3_current_is_latest_witness :
    TagFirstAt "v2.0" sampleReleases 0 ∧ FirstPublicAt sampleReleases 0 ∧
      CheckForUpdate "v2.0" (Except.ok sampleReleases) = [] :=
  have hp : TagFirstAt "v2.0" sampleReleases 0 :=
    ⟨⟨_, rfl, by decide⟩, scanned_of_take (by decide)⟩
  have hq : FirstPublicAt sampleReleases 0 :=
    ⟨⟨_, rfl, by decide⟩, prerelease_of_take (by decide)⟩
  ⟨hp, hq, C3_current_is_latest "v2.0" sampleReleases 0 hp hq⟩

/-- C4: when no entry of the release list carries the running version's tag
(the list may be empty, and may hold prereleases only), `CheckForUpdate` logs
nothing; it has no error to raise, its value being the log alone. -/
theorem C4_absent_version (Version : String) (releases : List (Option RepositoryRelease))
    (h : ∀ e, e ∈ releases → GetTagName e ≠ Version) :
    CheckForUpdate Version (Except.ok releases) = [] := by
  unfold CheckForUpdate
  simp only [scan_map_absent h]

/-- C4, at running version v0.9-dev against v2.0, v1.1 (prerelease), v1.0. -/
theorem C4_absent_version_witness :
    (∀ e, e ∈ sampleReleases → GetTagName e ≠ "v0.9-dev") ∧
      CheckForUpdate "v0.9-dev" (Except.ok sampleReleases) = [] :=
  ⟨by decide, C4_absent_version "v0.9-dev" sampleReleases (by decide)⟩

/-- C9: the release index built by the loop. When the running version first
occurs at position `p`: the keys are exactly the tags of the entries at
positions `0..p`; every key maps to a position at most `p` whose entry has
that tag; the running version maps to `p`; a tag carried by no entry at a
position up to `p` is not a key. When the running version does not occur,
the keys are exactly the tags of the whole list. -/
theorem C9_release_index (Version : String) (releases : List (Option RepositoryRelease)) :
    (∀ p, TagFirstAt Version releases p →
      (∀ t, (releaseIndex Version releases t).isSome ↔
        ∃ k e, k ≤ p ∧ releases[k]? = some e ∧ GetTagName e = t) ∧
      (∀ t j, releaseIndex Version releases t = some j →
        j ≤ p ∧ ∃ e, releases[j]? = some e ∧ GetTagName e = t) ∧
      releaseIndex Version releases Version = some p ∧
      (∀ t, (∀ k e, k ≤ p → releases[k]? = some e → GetTagName e ≠ t) →
        releaseIndex Version releases t = none)) ∧
    ((∀ e, e ∈ releases → GetTagName e ≠ Version) →
      ∀ t, (releaseIndex Version releases t).isSome ↔ ∃ e, e ∈ releases ∧ GetTagName e = t) := by
  have sound : ∀ t j, releaseIndex Version releases t = some j →
      ∃ e, releases[j]? = some e ∧ GetTagName e = t ∧ Scanned Version releases j := by
    intro t j hm
    rcases scan_map_sound Version releases 0 _ _ _ hm with h0 | ⟨k, e, hj, hk, ht, hs⟩
    · simp [ScanState.init] at h0
    · have hjk : j = k := by omega
      subst hjk
      exact ⟨e, hk, ht, hs⟩
  refine ⟨fun p hp => ⟨?_, ?_, scan_map_version hp, ?_⟩, fun habs t => ?_⟩
  · intro t
    constructor
    · intro hsome
      obtain ⟨j, hj⟩ := Option.isSome_iff_exists.mp hsome
      obtain ⟨e, he, ht, hs⟩ := sound t j hj
      exact ⟨j, e, scanned_le hp hs, he, ht⟩
    · rintro ⟨k, e, hk, he, ht⟩
      rw [← ht]
      exact scan_map_complete Version releases 0 ScanState.init k e he
        (fun i hi e2 he2 => hp.2 i (by omega) e2 he2)
  · intro t j hj
    obtain ⟨e, he, ht, hs⟩ := sound t j hj
    exact ⟨scanned_le hp hs, e, he, ht⟩
  · intro t hnot
    cases hm : releaseIndex Version releases t with
    | none => rfl
    | some j =>
      obtain ⟨e, he, ht, hs⟩ := sound t j hm
      exact absurd ht (hnot j e (scanned_le hp hs) he)
  · constructor
    · intro hsome
      obtain ⟨j, hj⟩ := Option.isSome_iff_exists.mp hsome
      obtain ⟨e, he, ht, _⟩ := sound t j hj
      exact ⟨e, List.getElem?_mem he, ht⟩
    · rintro ⟨e, hmem, ht⟩
      obtain ⟨k, hk⟩ := List.mem_iff_getElem?.mp hmem
      rw [← ht]
      exact scan_map_complete Version releases 0 ScanState.init k e hk
        (fun i _ e2 he2 => habs e2 (List.getElem?_mem he2))

/-- C9, at the release list v2.0, v1.1 (prerelease), v1.0: with running version
v1.1 the index maps v1.1 to position 1 and does not hold v1.0, which occurs
only later; with the absent version v0.9-dev it holds v1.0. -/
theorem C9_release_index_witness :
    TagFirstAt "v1.1" sampleReleases 1 ∧
      releaseIndex "v1.1" sampleReleases "v1.1" = some 1 ∧
      releaseIndex "v1.1" sampleReleases "v1.0" = none ∧
      (releaseIndex "v0.9-dev" sampleReleases "v1.0").isSome :=
  have hp : TagFirstAt "v1.1" sampleReleases 1 :=
    ⟨⟨_, rfl, by decide⟩, scanned_of_take (by decide)⟩
  ⟨hp, ((C9_release_index "v1.1" sampleReleases).1 1 hp).2.2.1,
    ((C9_release_index "v1.1" sampleReleases).1 1 hp).2.2.2 "v1.0" (by
      intro k e hk he
      have hmem : e ∈ sampleReleases.take 2 := by
        apply List.getElem?_mem (n := k)
        rw [List.getElem?_take, if_pos (by omega)]
        exact he
      exact (show ∀ x, x ∈ sampleReleases.take 2 → GetTagName x ≠ "v1.0" by decide) e hmem),
    ((C9_release_index "v0.9-dev" sampleReleases).2 (by decide) "v1.0").mpr
      ⟨mkRelease "v1.0" false "https://example.org/v1.0", by decide, by decide⟩⟩

end Update

namespace Init

/-! ### Splitting a path -/

theorem splitChars_ne_nil (sep : Char) (cs : List Char) : splitChars sep cs ≠ [] := by
  cases cs with
  | nil => simp [splitChars]
  | cons c cs =>
    unfold splitChars
    split
    · simp
    · split <;> simp

/-- Splitting around a separator splits both sides. -/
theorem splitChars_append (sep : Char) (a b : List Char) :
    splitChars sep (a ++ sep :: b) = splitChars sep a ++ splitChars sep b := by
  induction a with
  | nil => simp [splitChars]
  | cons c a ih =>
    by_cases hc : c = sep
    · simp [splitChars, hc, ih]
    · cases hsa : splitChars sep a with
      | nil => exact absurd hsa (splitChars_ne_nil sep a)
      | cons piece pieces =>
        have hstep : ∀ l : List Char, splitChars sep (c :: l) =
            match splitChars sep l with
            | [] => [[c]]
            | piece :: pieces => (c :: piece) :: pieces := by
          intro l
          rw [splitChars, if_neg hc]
        rw [List.cons_append, hstep, hstep, ih, hsa]
        rfl

/-- A sequence without the separator is one piece. -/
theorem splitChars_of_not_mem (sep : Char) (cs : List Char) (h : sep ∉ cs) :
    splitChars sep cs = [cs] := by
  induction cs with
  | nil => rfl
  | cons c cs ih =>
    have hc : c ≠ sep := fun hc => h (by simp [hc])
    have hcs : sep ∉ cs := fun hm => h (by simp [hm])
    simp [splitChars, hc, ih hcs]

/-- Splitting what was joined with separators gives the pieces back. -/
theorem splitChars_intercalate (sep : Char) (piece : List Char) (pieces : List (List Char))
    (h : ∀ x, x ∈ piece :: pieces → sep ∉ x) :
    splitChars sep ([sep].intercalate (piece :: pieces)) = piece :: pieces := by
  induction pieces generalizing piece with
  | nil =>
    simpa [List.intercalate] using splitChars_of_not_mem sep piece (h piece (by simp))
  | cons next pieces ih =>
    have hrest := ih next (fun x hx => h x (by simp at hx ⊢; tauto))
    have hjoin : [sep].intercalate (piece :: next :: pieces) =
        piece ++ sep :: [sep].intercalate (next :: pieces) := by
      simp [List.intercalate]
    rw [hjoin, splitChars_append, hrest, splitChars_of_not_mem sep piece (h piece (by simp))]
    rfl

theorem split_append (a b : String) (sep : Char) :
    Split (a ++ String.singleton sep ++ b) sep = Split a sep ++ Split b sep := by
  simp [Split, String.singleton, splitChars_append]

/-! ### The function `intersection` -/

theorem hash_foldl (s1 : List String) :
    ∀ (hash : StringSet) (k : String),
      (s1.foldl (fun hash e => fun k => if k = e then true else hash k) hash) k = true ↔
        k ∈ s1 ∨ hash k = true := by
  induction s1 with
  | nil => intro hash k; simp
  | cons e s1 ih =>
    intro hash k
    simp only [List.foldl_cons, ih, List.mem_cons]
    by_cases hk : k = e
    · simp [hk]
    · simp [hk]

theorem inter_foldl (hash : StringSet) (s2 : List String) :
    ∀ inter : List String,
      s2.foldl (fun inter e => if hash e then inter ++ [e] else inter) inter =
        inter ++ s2.filter hash := by
  induction s2 with
  | nil => intro inter; simp
  | cons e s2 ih =>
    intro inter
    simp only [List.foldl_cons, ih, List.filter_cons]
    cases hash e <;> simp

/-- The value of `intersection` is the second list filtered by membership in
the first. -/
theorem intersection_eq_filter (s1 s2 : List String) :
    intersection s1 s2 = s2.filter (fun e => decide (e ∈ s1)) := by
  unfold intersection
  simp only [inter_foldl, List.nil_append]
  apply List.filter_congr
  intro e _
  have h := hash_foldl s1 (fun _ => false) e
  simp only [Bool.false_eq_true, or_false] at h
  by_cases he : e ∈ s1
  · rw [h.mpr he]
    simp [he]
  · rw [Bool.eq_false_iff.mpr (fun hh => he (h.mp hh))]
    simp [he]

theorem mem_intersection (s1 s2 : List String) (e : String) :
    e ∈ intersection s1 s2 ↔ e ∈ s2 ∧ e ∈ s1 := by
  simp [intersection_eq_filter]

theorem intersection_length_pos (s1 s2 : List String) :
    (intersection s1 s2).length > 0 ↔ ∃ c, c ∈ s1 ∧ c ∈ s2 := by
  rw [gt_iff_lt, List.length_pos_iff_exists_mem]
  constructor
  · rintro ⟨e, he⟩
    exact ⟨e, ((mem_intersection s1 s2 e).mp he).2, ((mem_intersection s1 s2 e).mp he).1⟩
  · rintro ⟨c, h1, h2⟩
    exact ⟨c, (mem_intersection s1 s2 c).mpr ⟨h2, h1⟩⟩

theorem excluded_iff (path : String) :
    Excluded path ↔ ∃ c, c ∈ Split path PathSeparator ∧ c ∈ ignoreSlice :=
  intersection_length_pos _ _

/-! ### Ignored paths -/

/-- On an ignored path the callback leaves the entry as it is and returns the
error of the walk it was handed, nil when there is none. -/
theorem walkFn_excluded (templateContext : TemplateContext) (path : String) (node : Node)
    (err : Option GoError) (h : Excluded path) :
    walkFn templateContext path node err = (node, err) := by
  unfold walkFn
  cases err with
  | some e => rfl
  | none =>
    simp only
    exact if_pos h

/-- None of the ignored names is empty or holds a separator: each is one
component. -/
theorem split_ignored (name : String) (h : name ∈ ignoreSlice) :
    Split name PathSeparator = [name] ∧ name ≠ "" := by
  revert name
  decide

theorem split_join (path name : String) (c : String)
    (hc : c ∈ Split path PathSeparator ∧ c ≠ "" ∨ c ∈ Split name PathSeparator) :
    c ∈ Split (Join path name) PathSeparator := by
  unfold Join
  split
  · rename_i hlast
    obtain ⟨front, hfront⟩ : ∃ front, path.data = front ++ [PathSeparator] := by
      rcases List.eq_nil_or_concat path.data with hnil | ⟨front, last, hcat⟩
      · rw [hnil] at hlast
        simp at hlast
      · rw [hcat] at hlast
        simp at hlast
        exact ⟨front, by rw [hcat, hlast]; simp⟩
    have hpath : Split path PathSeparator =
        (splitChars PathSeparator front).map String.mk ++ [""] := by
      simp only [Split, hfront]
      rw [show front ++ [PathSeparator] = front ++ PathSeparator :: [] from rfl,
        splitChars_append]
      simp [splitChars]
    have hjoin : Split (path ++ name) PathSeparator =
        (splitChars PathSeparator front).map String.mk ++ Split name PathSeparator := by
      simp only [Split, String.data_append, hfront]
      rw [List.append_assoc, List.singleton_append, splitChars_append, List.map_append]
    rw [hjoin]
    rcases hc with ⟨hmem, hne⟩ | hmem
    · rw [hpath] at hmem
      rcases List.mem_append.mp hmem with h1 | h1
      · exact List.mem_append_left _ h1
      · simp at h1
        exact absurd h1 hne
    · exact List.mem_append_right _ hmem
  · rw [split_append]
    rcases hc with ⟨hmem, _⟩ | hmem
    · exact List.mem_append_left _ hmem
    · exact List.mem_append_right _ hmem

/-- The paths the walk builds below an ignored path are ignored. -/
theorem excluded_join (path name : String) (h : Excluded path) : Excluded (Join path name) := by
  obtain ⟨c, hc, hi⟩ := (excluded_iff path).mp h
  exact (excluded_iff _).mpr ⟨c, split_join path name c (Or.inl ⟨hc, (split_ignored c hi).2⟩), hi⟩

/-- The path the walk builds for an entry with an ignored name is ignored. -/
theorem excluded_join_name (path name : String) (h : name ∈ ignoreSlice) :
    Excluded (Join path name) := by
  refine (excluded_iff _).mpr ⟨name, split_join path name name (Or.inr ?_), h⟩
  rw [(split_ignored name h).1]
  simp

theorem find_nil (node : Node) : node.find [] = some node := by
  cases node <;> rfl

theorem find_dir (readDirErr : Option GoError) (entries : List (String × Node))
    (name : String) (names : List String) :
    (Node.dir readDirErr entries).find (name :: names) = findIn entries name names := by
  rw [Node.find, findIn]

theorem findIn_cons (name1 : String) (child : Node) (rest : List (String × Node))
    (name : String) (names : List String) :
    findIn ((name1, child) :: rest) name names =
      if name1 = name then child.find names else findIn rest name names := by
  unfold findIn
  by_cases h : name1 = name
  · simp [List.find?, h]
  · simp [List.find?, h]

theorem leaf_of_not_dir (node : Node)
    (h : ∀ readDirErr entries, node ≠ Node.dir readDirErr entries) : Leaf node := by
  intro name names
  cases node with
  | dir readDirErr entries => exact absurd rfl (h readDirErr entries)
  | file content readErr createErr => rw [Node.find]; all_goals simp
  | noLstat e => rw [Node.find]; all_goals simp
  | noStat e => rw [Node.find]; all_goals simp
  | link target => rw [Node.find]; all_goals simp

theorem set_nil (node new : Node) : node.set [] new = new := by
  cases node <;> rfl

theorem set_dir (readDirErr : Option GoError) (entries : List (String × Node))
    (name : String) (names : List String) (new : Node) :
    (Node.dir readDirErr entries).set (name :: names) new =
      Node.dir readDirErr (replaceFirst name (fun child => child.set names new) entries) := by
  rw [Node.set]

theorem find_cons_some (node : Node) (name : String) (names : List String) (entry : Node)
    (h : node.find (name :: names) = some entry) :
    ∃ readDirErr entries, node = Node.dir readDirErr entries := by
  cases node with
  | dir readDirErr entries => exact ⟨readDirErr, entries, rfl⟩
  | file content readErr createErr =>
    rw [leaf_of_not_dir _ (by intro r es; simp)] at h
    simp at h
  | noLstat e =>
    rw [leaf_of_not_dir _ (by intro r es; simp)] at h
    simp at h
  | noStat e =>
    rw [leaf_of_not_dir _ (by intro r es; simp)] at h
    simp at h
  | link target =>
    rw [leaf_of_not_dir _ (by intro r es; simp)] at h
    simp at h

theorem replaceFirst_same (name : String) (names : List String) (entry : Node)
    (ih : ∀ child : Node, child.find names = some entry → child.set names entry = child) :
    ∀ entries : List (String × Node), findIn entries name names = some entry →
      replaceFirst name (fun child => child.set names entry) entries = entries := by
  intro entries
  induction entries with
  | nil => intro _; rfl
  | cons head rest ihr =>
    obtain ⟨name1, child⟩ := head
    intro h
    rw [findIn_cons] at h
    rw [replaceFirst]
    split
    · rename_i heq
      rw [if_pos heq] at h
      rw [ih child h]
    · rename_i hne
      rw [if_neg hne] at h
      rw [ihr h]

/-- Putting back the entry that is at a location changes nothing. -/
theorem set_find_same (loc : List String) :
    ∀ (fs entry : Node), fs.find loc = some entry → fs.set loc entry = fs := by
  induction loc with
  | nil =>
    intro fs entry h
    rw [find_nil] at h
    rw [set_nil]
    exact (Option.some.inj h).symm
  | cons name names ih =>
    intro fs entry h
    obtain ⟨readDirErr, entries, hfs⟩ := find_cons_some fs name names entry h
    subst hfs
    rw [find_dir] at h
    rw [set_dir, replaceFirst_same name names entry (fun child hc => ih child entry hc) entries h]

theorem findIn_replaceFirst (name : String) (names : List String) (entry new : Node)
    (x : String) (xs : List String)
    (ih : x = name → ∀ child : Node, child.find names = some entry →
      (child.set names new).find xs = child.find xs) :
    ∀ entries : List (String × Node), findIn entries name names = some entry →
      findIn (replaceFirst name (fun child => child.set names new) entries) x xs =
        findIn entries x xs := by
  intro entries
  induction entries with
  | nil => intro _; rfl
  | cons head rest ihr =>
    obtain ⟨name1, child⟩ := head
    intro h
    rw [findIn_cons] at h
    rw [replaceFirst]
    split
    · rename_i heq
      rw [if_pos heq] at h
      rw [findIn_cons, findIn_cons]
      split
      · rename_i hx
        exact ih (hx.symm.trans heq) child h
      · rfl
    · rename_i hne
      rw [if_neg hne] at h
      rw [findIn_cons, findIn_cons, ihr h]

/-- Replacing one entry that is not a directory by another leaves alone every
location that has a name the replaced location has not. -/
theorem find_set_leaf (loc : List String) :
    ∀ (fs entry new : Node) (names : List String),
      fs.find loc = some entry → Leaf entry → Leaf new →
      (∃ n, n ∈ names ∧ n ∉ loc) →
      (fs.set loc new).find names = fs.find names := by
  induction loc with
  | nil =>
    intro fs entry new names h hleaf hnew hn
    rw [find_nil] at h
    have hfs : fs = entry := Option.some.inj h
    subst hfs
    rw [set_nil]
    cases names with
    | nil => simp at hn
    | cons x xs => rw [hleaf x xs, hnew x xs]
  | cons name rest ih =>
    intro fs entry new names h hleaf hnew hn
    obtain ⟨readDirErr, entries, hfs⟩ := find_cons_some fs name rest entry h
    subst hfs
    rw [find_dir] at h
    rw [set_dir]
    cases names with
    | nil => simp at hn
    | cons x xs =>
      rw [find_dir, find_dir]
      refine findIn_replaceFirst name rest entry new x xs ?_ entries h
      intro hx child hc
      refine ih child entry new xs hc hleaf hnew ?_
      obtain ⟨n, hmem, hnot⟩ := hn
      have hne : n ≠ name := fun hnn => hnot (by simp [hnn])
      have hnr : n ∉ rest := fun hr => hnot (by simp [hr])
      rcases List.mem_cons.mp hmem with hnx | hnxs
      · exact absurd (hnx.trans hx) hne
      · exact ⟨n, hnxs, hnr⟩

theorem clearOfIgnored_iff (loc : List String) :
    clearOfIgnored loc = true ↔ ∀ n, n ∈ loc → n ∉ ignoreSlice := by
  simp [clearOfIgnored, List.all_eq_true]

theorem resolve_some (fs : Node) (loc : List String) (node : Node) (at1 : List String)
    (entry : Node) (h : resolve fs loc node = (some at1, entry)) :
    fs.find at1 = some entry ∧ (node = Node.link at1 ∨ at1 = loc) := by
  unfold resolve at h
  split at h
  · rename_i target
    split at h
    · rename_i found hfound
      simp only [Prod.mk.injEq, Option.some.injEq] at h
      obtain ⟨h1, h2⟩ := h
      subst h1 h2
      exact ⟨hfound, Or.inl rfl⟩
    · simp at h
  · split at h
    · rename_i found hfound
      simp only [Prod.mk.injEq, Option.some.injEq] at h
      obtain ⟨h1, h2⟩ := h
      subst h1 h2
      exact ⟨hfound, Or.inr rfl⟩
    · simp at h

/-! ### The callback and the tree -/

/-- The callback leaves a directory as it is. -/
theorem walkFn_dir (templateContext : TemplateContext) (path : String)
    (readDirErr : Option GoError) (entries : List (String × Node)) (err : Option GoError) :
    (walkFn templateContext path (Node.dir readDirErr entries) err).1 =
      Node.dir readDirErr entries := by
  unfold walkFn
  cases err with
  | some e => rfl
  | none =>
    simp only [Stat]
    split <;> rfl

/-- The callback turns no entry into a directory. -/
theorem walkFn_leaf (templateContext : TemplateContext) (path : String) (node : Node)
    (err : Option GoError)
    (h : ∀ readDirErr entries, node ≠ Node.dir readDirErr entries) :
    Leaf (walkFn templateContext path node err).1 := by
  apply leaf_of_not_dir
  intro readDirErr entries
  cases node with
  | dir r es => exact absurd rfl (h r es)
  | noLstat e =>
    unfold walkFn
    cases err <;> simp [Stat]
    split <;> simp
  | noStat e =>
    unfold walkFn
    cases err <;> simp [Stat]
    split <;> simp
  | link target =>
    unfold walkFn
    cases err <;> simp [Stat]
    split <;> simp
  | file content readErr createErr =>
    unfold walkFn
    cases err with
    | some e => simp
    | none =>
      simp only [Stat]
      split
      · simp
      · cases hparse : ParseFiles (Node.file content readErr createErr) with
        | error e => simp
        | ok tmpl =>
          cases createErr with
          | some ce => simp [Create]
          | none =>
            simp only [Create, Bool.false_eq_true, if_false]
            rcases Execute templateContext tmpl with ⟨written, _ | execErr⟩ <;> simp [Write]

/-- On an ignored path a call of the callback leaves the whole tree as it is
and returns the error of the walk it was handed. -/
theorem visit_excluded (templateContext : TemplateContext) (path : String)
    (loc : List String) (fs node : Node) (err : Option GoError) (h : Excluded path) :
    visit templateContext path loc fs node err = (fs, err) := by
  unfold visit
  rcases hres : resolve fs loc node with ⟨_ | at1, entry⟩
  · simp only [walkFn_excluded _ _ _ _ h]
  · simp only [walkFn_excluded _ _ _ _ h]
    rw [set_find_same at1 fs entry (resolve_some fs loc node at1 entry hres).1]

/-- A call of the callback returns what the callback returns on the entry the
path resolves to. -/
theorem visit_err (templateContext : TemplateContext) (path : String)
    (loc : List String) (fs node : Node) (err : Option GoError) :
    (visit templateContext path loc fs node err).2 =
      (walkFn templateContext path (resolve fs loc node).2 err).2 := by
  unfold visit
  rcases resolve fs loc node with ⟨_ | at1, entry⟩ <;> rfl

/-- A call of the callback leaves alone what lies at a location with an ignored
name on the way, when the path of the call is ignored or resolves to a
location with no ignored name. -/
theorem visit_find (templateContext : TemplateContext) (path : String)
    (loc : List String) (fs node : Node) (err : Option GoError) (names : List String)
    (hloc : ¬ Excluded path → clearOfIgnored loc = true)
    (hlink : ∀ target, node = Node.link target →
      (decide (Excluded path) || clearOfIgnored target) = true)
    (hn : ∃ n, n ∈ names ∧ n ∈ ignoreSlice) :
    (visit templateContext path loc fs node err).1.find names = fs.find names := by
  by_cases hex : Excluded path
  · rw [visit_excluded _ _ _ _ _ _ hex]
  · unfold visit
    rcases hres : resolve fs loc node with ⟨_ | at1, entry⟩
    · rfl
    · obtain ⟨hfind, hat⟩ := resolve_some fs loc node at1 entry hres
      have hclear : clearOfIgnored at1 = true := by
        rcases hat with hl | hl
        · have := hlink at1 hl
          simpa [hex] using this
        · rw [hl]; exact hloc hex
      simp only
      by_cases hdir : ∃ readDirErr entries, entry = Node.dir readDirErr entries
      · obtain ⟨readDirErr, entries, he⟩ := hdir
        subst he
        rw [walkFn_dir, set_find_same at1 fs _ hfind]
      · have hnd : ∀ readDirErr entries, entry ≠ Node.dir readDirErr entries :=
          fun r es he => hdir ⟨r, es, he⟩
        refine find_set_leaf at1 fs entry _ names hfind (leaf_of_not_dir entry hnd)
          (walkFn_leaf templateContext path entry err hnd) ?_
        obtain ⟨n, hmem, hign⟩ := hn
        exact ⟨n, hmem, fun hat1 => (clearOfIgnored_iff at1).mp hclear n hat1 hign⟩

/-! ### The walk over ignored paths -/

/-- One round of the loop of `walk`, on an entry for which `lstat` succeeds. -/
theorem walkEntries_step (templateContext : TemplateContext) (path name : String)
    (loc : List String) (fs : Node) (child : Node) (rest : List (String × Node))
    (h : ∀ e, child ≠ Node.noLstat e) :
    walkEntries templateContext path loc fs ((name, child) :: rest) =
      match walk templateContext (Join path name) (loc ++ [name]) fs child with
      | (fs1, some err) => (fs1, some err)
      | (fs1, none) => walkEntries templateContext path loc fs1 rest := by
  rw [walkEntries]
  intro lstatErr hc
  exact h lstatErr hc

/-- A call of `walk` on an entry that is not a directory. -/
theorem walk_leaf (templateContext : TemplateContext) (path : String) (loc : List String)
    (fs : Node) (node : Node)
    (h : ∀ readDirErr entries, node ≠ Node.dir readDirErr entries) :
    walk templateContext path loc fs node = visit templateContext path loc fs node none := by
  rw [walk]
  intro readDirErr entries hc
  exact h readDirErr entries hc

mutual
/-- Below an ignored path, `walk` changes nothing and returns the first error
of the traversal. -/
theorem walk_excluded (templateContext : TemplateContext) :
    ∀ (node : Node) (path : String) (loc : List String) (fs : Node), Excluded path →
      (∀ e, node ≠ Node.noLstat e) →
      walk templateContext path loc fs node = (fs, traversalError node)
  | Node.dir (some readDirErr) entries, path, loc, fs, h, _ => by
    rw [walk, visit_excluded _ _ _ _ _ _ h, traversalError]
  | Node.dir none entries, path, loc, fs, h, _ => by
    rw [walk, visit_excluded _ _ _ _ _ _ h, traversalError]
    simp only
    rw [walkEntries_excluded templateContext entries path loc fs h]
  | Node.file content readErr createErr, path, loc, fs, h, _ => by
    rw [walk_leaf _ _ _ _ _ (by intro r es; simp), visit_excluded _ _ _ _ _ _ h,
      traversalError]
  | Node.noStat err, path, loc, fs, h, _ => by
    rw [walk_leaf _ _ _ _ _ (by intro r es; simp), visit_excluded _ _ _ _ _ _ h,
      traversalError]
  | Node.link target, path, loc, fs, h, _ => by
    rw [walk_leaf _ _ _ _ _ (by intro r es; simp), visit_excluded _ _ _ _ _ _ h,
      traversalError]
  | Node.noLstat err, _, _, _, _, hne => absurd rfl (hne err)
/-- Below an ignored path, the loop over the entries of a directory changes
nothing and returns the first error of the traversal. -/
theorem walkEntries_excluded (templateContext : TemplateContext) :
    ∀ (entries : List (String × Node)) (path : String) (loc : List String) (fs : Node),
      Excluded path →
      walkEntries templateContext path loc fs entries = (fs, traversalErrorEntries entries)
  | [], path, loc, fs, h => by
    rw [walkEntries, traversalErrorEntries]
  | (name, Node.noLstat lstatErr) :: rest, path, loc, fs, h => by
    rw [walkEntries, visit_excluded _ _ _ _ _ _ (excluded_join path name h),
      traversalErrorEntries, traversalError]
  | (name, Node.dir readDirErr entries) :: rest, path, loc, fs, h => by
    rw [walkEntries_step _ _ _ _ _ _ _ (by intro e; simp),
      walk_excluded templateContext (Node.dir readDirErr entries) (Join path name)
        (loc ++ [name]) fs (excluded_join path name h) (by intro e; simp),
      traversalErrorEntries]
    cases traversalError (Node.dir readDirErr entries) with
    | some err => rfl
    | none =>
      simp only
      rw [walkEntries_excluded templateContext rest path loc fs h]
  | (name, Node.file content readErr createErr) :: rest, path, loc, fs, h => by
    rw [walkEntries_step _ _ _ _ _ _ _ (by intro e; simp),
      walk_excluded templateContext (Node.file content readErr createErr) (Join path name)
        (loc ++ [name]) fs (excluded_join path name h) (by intro e; simp),
      traversalErrorEntries]
    simp only [traversalError]
    rw [walkEntries_excluded templateContext rest path loc fs h]
  | (name, Node.noStat err) :: rest, path, loc, fs, h => by
    rw [walkEntries_step _ _ _ _ _ _ _ (by intro e; simp),
      walk_excluded templateContext (Node.noStat err) (Join path name)
        (loc ++ [name]) fs (excluded_join path name h) (by intro e; simp),
      traversalErrorEntries]
    simp only [traversalError]
    rw [walkEntries_excluded templateContext rest path loc fs h]
  | (name, Node.link target) :: rest, path, loc, fs, h => by
    rw [walkEntries_step _ _ _ _ _ _ _ (by intro e; simp),
      walk_excluded templateContext (Node.link target) (Join path name)
        (loc ++ [name]) fs (excluded_join path name h) (by intro e; simp),
      traversalErrorEntries]
    simp only [traversalError]
    rw [walkEntries_excluded templateContext rest path loc fs h]
end

/-- The location of an entry is clear of ignored names when its path is not
ignored, given the same of its directory. -/
theorem clear_step (path name : String) (loc : List String)
    (hloc : ¬ Excluded path → clearOfIgnored loc = true) :
    ¬ Excluded (Join path name) → clearOfIgnored (loc ++ [name]) = true := by
  intro hex
  have hp : ¬ Excluded path := fun h => hex (excluded_join path name h)
  have hname : name ∉ ignoreSlice := fun h => hex (excluded_join_name path name h)
  rw [clearOfIgnored_iff]
  intro n hn
  rcases List.mem_append.mp hn with h1 | h1
  · exact (clearOfIgnored_iff loc).mp (hloc hp) n h1
  · simp at h1
    rw [h1]
    exact hname

mutual
/-- The walk leaves alone what lies at a location with an ignored name on the
way, when no link with a path that is not ignored resolves to such a
location. -/
theorem walk_find (templateContext : TemplateContext) (names : List String)
    (hn : ∃ n, n ∈ names ∧ n ∈ ignoreSlice) :
    ∀ (node : Node) (path : String) (loc : List String) (fs : Node),
      (¬ Excluded path → clearOfIgnored loc = true) → linksClear path node = true →
      (walk templateContext path loc fs node).1.find names = fs.find names
  | Node.dir readDirErr entries, path, loc, fs, hloc, hlinks => by
    have hvisit := visit_find templateContext path loc fs (Node.dir readDirErr entries)
      readDirErr names hloc (by intro target ht; simp at ht) hn
    rw [walk]
    rcases hv : visit templateContext path loc fs (Node.dir readDirErr entries) readDirErr
      with ⟨fs1, _ | err1⟩
    · rw [hv] at hvisit
      cases readDirErr with
      | some e => exact hvisit
      | none =>
        simp only
        rw [linksClear] at hlinks
        rw [walkEntries_find templateContext names hn entries path loc fs1 hloc hlinks]
        exact hvisit
    · rw [hv] at hvisit
      exact hvisit
  | Node.file content readErr createErr, path, loc, fs, hloc, _ => by
    rw [walk_leaf _ _ _ _ _ (by intro r es; simp)]
    exact visit_find _ _ _ _ _ _ _ hloc (by intro target ht; simp at ht) hn
  | Node.noLstat e, path, loc, fs, hloc, _ => by
    rw [walk_leaf _ _ _ _ _ (by intro r es; simp)]
    exact visit_find _ _ _ _ _ _ _ hloc (by intro target ht; simp at ht) hn
  | Node.noStat e, path, loc, fs, hloc, _ => by
    rw [walk_leaf _ _ _ _ _ (by intro r es; simp)]
    exact visit_find _ _ _ _ _ _ _ hloc (by intro target ht; simp at ht) hn
  | Node.link target, path, loc, fs, hloc, hlinks => by
    rw [walk_leaf _ _ _ _ _ (by intro r es; simp)]
    refine visit_find _ _ _ _ _ _ _ hloc ?_ hn
    intro target1 ht
    rw [linksClear] at hlinks
    cases ht
    exact hlinks
/-- The loop over the entries of a directory leaves alone what lies at a
location with an ignored name on the way, when no link with a path that is not
ignored resolves to such a location. -/
theorem walkEntries_find (templateContext : TemplateContext) (names : List String)
    (hn : ∃ n, n ∈ names ∧ n ∈ ignoreSlice) :
    ∀ (entries : List (String × Node)) (path : String) (loc : List String) (fs : Node),
      (¬ Excluded path → clearOfIgnored loc = true) → linksClearEntries path entries = true →
      (walkEntries templateContext path loc fs entries).1.find names = fs.find names
  | [], path, loc, fs, _, _ => by rw [walkEntries]
  | (name, Node.noLstat lstatErr) :: rest, path, loc, fs, hloc, hlinks => by
    rw [linksClearEntries, Bool.and_eq_true] at hlinks
    have hvisit := visit_find templateContext (Join path name) (loc ++ [name]) fs
      (Node.noLstat lstatErr) (some lstatErr) names (clear_step path name loc hloc)
      (by intro target ht; simp at ht) hn
    rw [walkEntries]
    rcases hv : visit templateContext (Join path name) (loc ++ [name]) fs
      (Node.noLstat lstatErr) (some lstatErr) with ⟨fs1, _ | err1⟩
    · rw [hv] at hvisit
      simp only
      rw [walkEntries_find templateContext names hn rest path loc fs1 hloc hlinks.2]
      exact hvisit
    · rw [hv] at hvisit
      exact hvisit
  | (name, Node.dir readDirErr entries) :: rest, path, loc, fs, hloc, hlinks => by
    rw [linksClearEntries, Bool.and_eq_true] at hlinks
    have hchild := walk_find templateContext names hn (Node.dir readDirErr entries)
      (Join path name) (loc ++ [name]) fs (clear_step path name loc hloc) hlinks.1
    rw [walkEntries_step _ _ _ _ _ _ _ (by intro e; simp)]
    rcases hw : walk templateContext (Join path name) (loc ++ [name]) fs
      (Node.dir readDirErr entries) with ⟨fs1, _ | err1⟩
    · rw [hw] at hchild
      simp only
      rw [walkEntries_find templateContext names hn rest path loc fs1 hloc hlinks.2]
      exact hchild
    · rw [hw] at hchild
      exact hchild
  | (name, Node.file content readErr createErr) :: rest, path, loc, fs, hloc, hlinks => by
    rw [linksClearEntries, Bool.and_eq_true] at hlinks
    have hchild := walk_find templateContext names hn (Node.file content readErr createErr)
      (Join path name) (loc ++ [name]) fs (clear_step path name loc hloc) hlinks.1
    rw [walkEntries_step _ _ _ _ _ _ _ (by intro e; simp)]
    rcases hw : walk templateContext (Join path name) (loc ++ [name]) fs
      (Node.file content readErr createErr) with ⟨fs1, _ | err1⟩
    · rw [hw] at hchild
      simp only
      rw [walkEntries_find templateContext names hn rest path loc fs1 hloc hlinks.2]
      exact hchild
    · rw [hw] at hchild
      exact hchild
  | (name, Node.noStat e) :: rest, path, loc, fs, hloc, hlinks => by
    rw [linksClearEntries, Bool.and_eq_true] at hlinks
    have hchild := walk_find templateContext names hn (Node.noStat e)
      (Join path name) (loc ++ [name]) fs (clear_step path name loc hloc) hlinks.1
    rw [walkEntries_step _ _ _ _ _ _ _ (by intro e; simp)]
    rcases hw : walk templateContext (Join path name) (loc ++ [name]) fs
      (Node.noStat e) with ⟨fs1, _ | err1⟩
    · rw [hw] at hchild
      simp only
      rw [walkEntries_find templateContext names hn rest path loc fs1 hloc hlinks.2]
      exact hchild
    · rw [hw] at hchild
      exact hchild
  | (name, Node.link target) :: rest, path, loc, fs, hloc, hlinks => by
    rw [linksClearEntries, Bool.and_eq_true] at hlinks
    have hchild := walk_find templateContext names hn (Node.link target)
      (Join path name) (loc ++ [name]) fs (clear_step path name loc hloc) hlinks.1
    rw [walkEntries_step _ _ _ _ _ _ _ (by intro e; simp)]
    rcases hw : walk templateContext (Join path name) (loc ++ [name]) fs
      (Node.link target) with ⟨fs1, _ | err1⟩
    · rw [hw] at hchild
      simp only
      rw [walkEntries_find templateContext names hn rest path loc fs1 hloc hlinks.2]
      exact hchild
    · rw [hw] at hchild
      exact hchild
end

end Init

namespace Init

/-! ### Joining components -/

theorem intercalate_go_data (s : String) (rest : List String) :
    ∀ acc : String, (String.intercalate.go acc s rest).data =
      List.intercalate s.data (acc.data :: rest.map String.data) := by
  induction rest with
  | nil => intro acc; simp [String.intercalate.go, List.intercalate]
  | cons a rest ih =>
    intro acc
    rw [String.intercalate.go, ih]
    cases rest <;> simp [List.intercalate]

theorem intercalate_data (s piece : String) (pieces : List String) :
    (String.intercalate s (piece :: pieces)).data =
      List.intercalate s.data (piece.data :: pieces.map String.data) := by
  rw [String.intercalate, intercalate_go_data]

/-- A path made of components joined by the separator splits into these
components. -/
theorem split_intercalate (piece : String) (pieces : List String)
    (h : ∀ x, x ∈ piece :: pieces → PathSeparator ∉ x.data) :
    Split (String.intercalate (String.singleton PathSeparator) (piece :: pieces))
      PathSeparator = piece :: pieces := by
  unfold Split
  rw [intercalate_data]
  have hs : (String.singleton PathSeparator).data = [PathSeparator] := rfl
  rw [hs, splitChars_intercalate PathSeparator piece.data (pieces.map String.data)]
  · have hid : String.mk ∘ String.data = id := funext (fun _ => rfl)
    simp [hid]
  · intro x hx
    rcases List.mem_cons.mp hx with hx | hx
    · rw [hx]; exact h piece (by simp)
    · obtain ⟨y, hy, hxy⟩ := List.mem_map.mp hx
      rw [← hxy]
      exact h y (by simp [hy])

/-! ### The claims about `renderTemplates` -/

/-- C6: the exclusion test is exact equality on whole path components. An
element is in the value of `intersection` exactly when it is an exclusion entry
equal to a component of the split path; the value is non-empty exactly when
some component equals some entry; the value is the exclusion list filtered by
occurrence among the components; and the components of a path are the pieces
between its separators. A component that contains or extends an entry, such as
`binary` or `.gitignore`, matches nothing. -/
theorem C6_exclusion_exact_match :
    (∀ (path : String) (exclusions : List String) (e : String),
      e ∈ intersection (Split path PathSeparator) exclusions ↔
        e ∈ exclusions ∧ e ∈ Split path PathSeparator) ∧
    (∀ (path : String) (exclusions : List String),
      (intersection (Split path PathSeparator) exclusions).length > 0 ↔
        ∃ c, c ∈ Split path PathSeparator ∧ c ∈ exclusions) ∧
    (∀ (path : String) (exclusions : List String),
      intersection (Split path PathSeparator) exclusions =
        exclusions.filter (fun e => decide (e ∈ Split path PathSeparator))) ∧
    (∀ (piece : String) (pieces : List String),
      (∀ x, x ∈ piece :: pieces → PathSeparator ∉ x.data) →
      Split (String.intercalate (String.singleton PathSeparator) (piece :: pieces))
        PathSeparator = piece :: pieces) ∧
    intersection (Split "/home/u/proj/binary/.gitignore" PathSeparator) ignoreSlice = [] ∧
    intersection (Split "/home/u/proj/bin/.git" PathSeparator) ignoreSlice = [".git", "bin"] :=
  ⟨fun path exclusions e => mem_intersection _ exclusions e,
    fun path exclusions => intersection_length_pos _ exclusions,
    fun path exclusions => intersection_eq_filter _ exclusions,
    split_intercalate, by decide, by decide⟩

/-- C7: on a path that is not ignored, the callback rewrites a file whose
content is exactly the three field markers to the values of `Owner`, `Repo`
and `CliName` concatenated in that order, verbatim, and returns no error. -/
theorem C7_three_markers (templateContext : TemplateContext) (path : String)
    (h : ¬ ∃ c, c ∈ Split path PathSeparator ∧ c ∈ ignoreSlice) :
    walkFn templateContext path (Node.file threeMarkers none none) none =
      (Node.file (templateContext.Owner ++ templateContext.Repo ++ templateContext.CliName)
        none none, none) := by
  have hex : ¬ (intersection (Split path PathSeparator) ignoreSlice).length > 0 :=
    fun hlen => h ((excluded_iff path).mp hlen)
  have hparse : ParseFiles (Node.file threeMarkers none none) =
      Except.ok [TemplateNode.field "Owner", TemplateNode.field "Repo",
        TemplateNode.field "CliName"] := rfl
  unfold walkFn
  simp only [if_neg hex, Stat, hparse, Create, Bool.false_eq_true, if_false]
  simp [Execute, lookupField, Write, String.append_assoc]

/-- C7, at the context acme, tool, mycli and the path of `main.go`. -/
theorem C7_three_markers_witness :
    walkFn exampleContext "/home/u/proj/cmd/mycli/main.go"
        (Node.file threeMarkers none none) none =
      (Node.file "acmetoolmycli" none none, none) :=
  C7_three_markers exampleContext "/home/u/proj/cmd/mycli/main.go" (by
    intro hc
    exact absurd ((excluded_iff _).mpr hc) (by decide))

/-! ### Errors of the walk -/

/-- An error is in the chain of what `fmt.Errorf` makes of it. -/
theorem mem_chain_Errorf (text : String) (cause : GoError) :
    cause ∈ (Errorf text (some cause)).chain := by
  cases cause <;> simp [Errorf, GoError.chain]

/-- The callback returns the error of the traversal it is handed. -/
theorem walkFn_traversal_error (templateContext : TemplateContext) (path : String)
    (node : Node) (cause : GoError) :
    walkFn templateContext path node (some cause) = (node, some cause) := rfl

/-- The callback wraps the error of `os.Stat`. -/
theorem walkFn_stat_error (templateContext : TemplateContext) (path : String)
    (node : Node) (cause : GoError) (hex : ¬ Excluded path)
    (hstat : Stat node = Except.error cause) :
    walkFn templateContext path node none =
      (node, some (Errorf "failed to read file info: " (some cause))) := by
  have hlen : ¬ (intersection (Split path PathSeparator) ignoreSlice).length > 0 := hex
  unfold walkFn
  simp only [hstat]
  rw [if_neg hlen]

/-- The callback wraps the error of executing the template; the file then
holds what was written before the error. -/
theorem walkFn_execute_error (templateContext : TemplateContext) (path : String)
    (node f : Node) (tmpl : List TemplateNode) (written : String) (cause : GoError)
    (hex : ¬ Excluded path) (hstat : Stat node = Except.ok { IsDir := false })
    (hparse : ParseFiles node = Except.ok tmpl) (hcreate : Create node = Except.ok f)
    (hexec : Execute templateContext tmpl = (written, some cause)) :
    walkFn templateContext path node none =
      (Write written f, some (Errorf "failed to execute template: " (some cause))) := by
  have hlen : ¬ (intersection (Split path PathSeparator) ignoreSlice).length > 0 := hex
  unfold walkFn
  simp only [hstat, hparse, hcreate, hexec]
  rw [if_neg hlen]
  rfl

/-- The function `renderTemplates` wraps the error of the walk. -/
theorem renderTemplates_walk_error (templateContext : TemplateContext) (os : System)
    (tree renamed tree1 : Node) (path : String) (cause : GoError)
    (hwd : os.Getwd = Except.ok path)
    (hren : os.Rename (path ++ "/cmd/cli") (path ++ "/cmd/" ++ templateContext.CliName) tree =
      Except.ok renamed)
    (hwalk : Walk templateContext path renamed = (tree1, some cause)) :
    renderTemplates templateContext os tree =
        (tree1, Outcome.returned (some (Errorf "failed to walk directory: " (some cause)))) ∧
      cause ∈ (Errorf "failed to walk directory: " (some cause)).chain := by
  refine ⟨?_, mem_chain_Errorf _ cause⟩
  unfold renderTemplates
  simp only [hwd, hren, hwalk]

/-- C8 fails on the code. Whenever parsing a file that is not ignored fails, or
opening it for writing fails, the callback returns an error that wraps
nothing: the cause is lost. At the tree with a malformed `Makefile`,
`renderTemplates` returns a walk error whose chain does not hold the parse
error; at the tree with a read-only `LICENSE`, one whose chain does not hold
the error of `os.Create`. -/
theorem C8_cause_not_wrapped :
    (∀ (templateContext : TemplateContext) (path : String) (node : Node) (cause : GoError),
      ¬ Excluded path → Stat node = Except.ok { IsDir := false } →
      ParseFiles node = Except.error cause →
      walkFn templateContext path node none =
        (node, some (GoError.leaf "failed to parse template: %!w(<nil>)"))) ∧
    (∀ (templateContext : TemplateContext) (path : String) (node : Node)
        (tmpl : List TemplateNode) (cause : GoError),
      ¬ Excluded path → Stat node = Except.ok { IsDir := false } →
      ParseFiles node = Except.ok tmpl → Create node = Except.error cause →
      walkFn templateContext path node none =
        (node, some (GoError.leaf "failed to create file: %!w(<nil>)"))) ∧
    Parse "build: \x7b\x7b" = Except.error unclosedAction ∧
    (renderTemplates exampleContext (exampleSystem "/home/u/proj") malformedTree).2 =
      Outcome.returned (some parseFailure) ∧
    unclosedAction ∉ parseFailure.chain ∧
    (renderTemplates exampleContext (exampleSystem "/home/u/proj") readOnlyTree).2 =
      Outcome.returned (some createFailure) ∧
    readOnly ∉ createFailure.chain := by
  refine ⟨?_, ?_, rfl, rfl, by decide, rfl, by decide⟩
  · intro templateContext path node cause hex hstat hparse
    unfold walkFn
    simp only [hstat, hparse]
    have hlen : ¬ (intersection (Split path PathSeparator) ignoreSlice).length > 0 := hex
    rw [if_neg hlen]
    rfl
  · intro templateContext path node tmpl cause hex hstat hparse hcreate
    unfold walkFn
    simp only [hstat, hparse, hcreate]
    have hlen : ¬ (intersection (Split path PathSeparator) ignoreSlice).length > 0 := hex
    rw [if_neg hlen]
    rfl

end Init

end Charmil
